import Mathlib

/-!
Verification development for the `my-judge-webapp2` online-judge repository.

The Python sources are shallowly embedded as executable Lean definitions:

* text is `String` (a list of `Char`); the Python string helpers used by the
  judge (`str.strip`, `str.split('\n')`, `str.splitlines`, `str.startswith`,
  `sorted`) are reimplemented on `List Char` / `List String`;
* MongoDB user documents (`user_utils.py`) become the `UserRecord` structure,
  and `update_user_rating`'s `$inc`/`$push` update document becomes a pure
  record transformer;
* the two judging paths — `handlers/submit.py` (`normalize_output`,
  `compare_outputs`, `judge_code`) and `keep_alive.py`
  (`_process_submission_job`) — are embedded with the per-test runner
  (`run_code`, a subprocess call) abstracted as an oracle function;
* the in-memory job queue of `utils/job_queue.py` becomes a transition
  function on a `SystemState` (job table, FIFO of ids, user store), with the
  worker body `_worker_loop` as one step;
* the ranking pipeline of `handlers/rankings.py` (`parse_time`,
  `get_sorted_users`, `build_ranking_message`) is embedded with the printed
  `(rank, user)` rows as the observable output.

Whitespace note: Python's `str.strip` and `str.splitlines` also handle some
non-ASCII whitespace / line boundaries (e.g. U+00A0, U+0085); the embedding
models the ASCII whitespace set and the main line-boundary set, which covers
every string the theorems below mention.
-/

set_option maxRecDepth 10000

/-- Characters removed by Python's `str.strip()` (ASCII whitespace). -/
def pyWS (c : Char) : Bool :=
  c == ' ' || c == '\t' || c == '\n' || c == '\r' || c == '\x0b' || c == '\x0c'

/-- Drop the longest suffix of characters satisfying `p`. -/
def dropEnd (p : Char → Bool) (l : List Char) : List Char :=
  (l.reverse.dropWhile p).reverse

/-- Python `str.strip()` on a character list: drop whitespace at both ends. -/
def stripL (l : List Char) : List Char :=
  dropEnd pyWS (l.dropWhile pyWS)

/-- Python `str.strip()`. -/
def pyStrip (s : String) : String :=
  String.mk (stripL s.data)

/-- Python `text.split('\n')`: split at every newline, keeping empty pieces
(`"".split('\n') == [""]`). -/
def splitCh : List Char → List (List Char)
  | [] => [[]]
  | c :: cs =>
    match splitCh cs with
    | [] => [[]]
    | h :: t => if c == '\n' then [] :: h :: t else (c :: h) :: t

/-- Line-boundary characters of Python's `str.splitlines()`. -/
def isLineBoundary (c : Char) : Bool :=
  c == '\n' || c == '\r' || c == '\x0b' || c == '\x0c' || c == '\x1c' ||
  c == '\x1d' || c == '\x1e' || c == '\x85' || c == '\u2028' || c == '\u2029'

/-- Python `text.splitlines()`: split at any line boundary, treating `\r\n`
as a single boundary and producing no trailing empty line. -/
def splitlinesL : List Char → List (List Char)
  | [] => []
  | [c] => if isLineBoundary c then [[]] else [[c]]
  | c :: d :: rest =>
    if isLineBoundary c then
      if c == '\r' && d == '\n' then [] :: splitlinesL rest
      else [] :: splitlinesL (d :: rest)
    else
      match splitlinesL (d :: rest) with
      | [] => [[c]]
      | h :: t => (c :: h) :: t

/-- Keep a line when its (already stripped) text is non-empty. -/
def nonEmptyLine (l : List Char) : Bool := !l.isEmpty

/-- The spec's §4.2 normalize contract on a character list: split at
newlines, trim each line, drop blank lines, keep the order. -/
def specNormalizeL (l : List Char) : List (List Char) :=
  ((splitCh l).map stripL).filter nonEmptyLine

/-- `handlers/submit.py: normalize_output` on a character list:
`[line.strip() for line in text.strip().split('\n') if line.strip()]`. -/
def normalizeL (l : List Char) : List (List Char) :=
  ((splitCh (stripL l)).map stripL).filter nonEmptyLine

/-- `handlers/submit.py: normalize_output`. -/
def normalize_output (text : String) : List String :=
  (normalizeL text.data).map String.mk

/-- The spec's §4.2 `normalize` contract on strings. -/
def specNormalize (text : String) : List String :=
  (specNormalizeL text.data).map String.mk

/-- Lexicographic code-point comparison of character lists, as Python
compares strings (`a <= b`). -/
def listCharLe : List Char → List Char → Bool
  | [], _ => true
  | _ :: _, [] => false
  | a :: as, b :: bs =>
    if a.toNat < b.toNat then true
    else if b.toNat < a.toNat then false
    else listCharLe as bs

/-- Python string comparison `s <= t`. -/
def strLe (s t : String) : Bool := listCharLe s.data t.data

/-- Insert into a list sorted by `le`. -/
def insertLe {α : Type} (le : α → α → Bool) (x : α) : List α → List α
  | [] => [x]
  | y :: ys => if le x y then x :: y :: ys else y :: insertLe le x ys

/-- Insertion sort by `le`.  Python's `sorted` is a different algorithm, but
for the total orders used here any sort produces the same (unique) sorted
permutation, so equality tests on the results agree. -/
def sortLe {α : Type} (le : α → α → Bool) : List α → List α
  | [] => []
  | x :: xs => insertLe le x (sortLe le xs)

/-- Python `sorted` on a list of strings. -/
def pySort (l : List String) : List String := sortLe strLe l

/-- `handlers/submit.py: compare_outputs`. -/
def compare_outputs (expected result : String) (allow_unordered : Bool) : Bool :=
  let expected_lines := normalize_output expected
  let result_lines := normalize_output result
  if allow_unordered then pySort expected_lines == pySort result_lines
  else expected_lines == result_lines

/-- The per-text normalization of `keep_alive.py: _process_submission_job`'s
unordered branch: `[x.strip() for x in text.strip().splitlines() if x.strip()]`. -/
def http_normalize (text : String) : List String :=
  (((splitlinesL (stripL text.data)).map stripL).filter nonEmptyLine).map String.mk

/-- The ordered-branch equality test of `_process_submission_job`:
`expected.strip() == actual.strip()` on the raw text. -/
def http_ordered_match (expected actual : String) : Bool :=
  pyStrip expected == pyStrip actual

/-- The unordered-branch equality test of `_process_submission_job`:
`sorted(normalized expected) == sorted(normalized actual)`. -/
def http_unordered_match (expected actual : String) : Bool :=
  pySort (http_normalize expected) == pySort (http_normalize actual)

/-- A submission record as pushed onto `user["submissions"]`
(`handlers/submit.py: process_submission`). -/
structure Submission where
  problem_id : Int
  problem_name : String
  verdict : String
  lang : String
deriving DecidableEq

/-- A MongoDB user document (`user_utils.py`), restricted to the fields the
rating ledger touches. -/
structure UserRecord where
  rating : Int
  submission_count : Int
  total_rating : Int
  submissions : List Submission
  accepted_problems : List Int
  wrong_problems : List Int
deriving DecidableEq

/-- The zero-valued document inserted by `user_utils.ensure_user_initialized`. -/
def initialUser : UserRecord := ⟨0, 0, 0, [], [], []⟩

/-- `user_utils.LEVEL_RATING.get(level, 0)`. -/
def LEVEL_RATING (level : String) : Int :=
  if level == "Easy" then 5
  else if level == "Medium" then 10
  else if level == "Medium++" then 15
  else if level == "Hard" then 20
  else 0

/-- `user_utils.update_user_rating`, as the effect of its single
`update_one` call on the user's document.  `submission=None` /
`verdict=None` become `none`; a present submission dict is always truthy
(it is a non-empty dict), so `if submission:` becomes a match on `some`. -/
def update_user_rating (user : UserRecord) (level : String) (problem_id : Int)
    (submission : Option Submission) (verdict : Option String) : UserRecord :=
  let points := LEVEL_RATING level
  let u1 : UserRecord := { user with submission_count := user.submission_count + 1 }
  let u2 : UserRecord :=
    if verdict = some "✅ Accepted" then
      if problem_id ∈ user.accepted_problems then u1
      else { u1 with rating := u1.rating + points,
                     total_rating := u1.total_rating + points,
                     accepted_problems := u1.accepted_problems ++ [problem_id] }
    else
      if problem_id ∉ user.accepted_problems ∧ problem_id ∉ user.wrong_problems then
        { u1 with wrong_problems := u1.wrong_problems ++ [problem_id] }
      else u1
  match submission with
  | some sub => { u2 with submissions := u2.submissions ++ [sub] }
  | none => u2

/-- `user_utils.save_submission`: `$push` the record onto `submissions`. -/
def save_submission (user : UserRecord) (submission : Submission) : UserRecord :=
  { user with submissions := user.submissions ++ [submission] }

/-- `user_utils.ensure_user_initialized` on the user's (possibly absent)
document. -/
def ensure_user_init : Option UserRecord → UserRecord
  | none => initialUser
  | some u => u

/-- The user-document effect of `handlers/submit.py: process_submission`:
`ensure_user_initialized`, then `save_submission(record)`, then
`update_user_rating(..., submission=record, verdict=verdict)`. -/
def process_submission_user (user0 : Option UserRecord) (level : String) (pid : Int)
    (record : Submission) (verdict : String) : UserRecord :=
  update_user_rating (save_submission (ensure_user_init user0) record)
    level pid (some record) (some verdict)

/-- One test case of a problem (`problems` JSON: `{"input": ..., "output": ...}`). -/
structure TestCase where
  input : String
  output : String
deriving DecidableEq

/-- A problem document, restricted to the fields the judge reads. -/
structure Problem where
  id : Int
  name : String
  level : String
  test_cases : List TestCase
  allow_unordered_output : Bool
deriving DecidableEq

/-- Bool prefix test on character lists (Python `str.startswith`). -/
def listIsPrefix : List Char → List Char → Bool
  | [], _ => true
  | _ :: _, [] => false
  | a :: as, b :: bs => a == b && listIsPrefix as bs

/-- The runner-failure test of both judging paths:
`result.startswith(("⚠️", "⏰", "❗"))`.  `run_code` prefixes every
classified failure (runtime error, compile error, timeout, unsupported
language, internal error) with one of these markers. -/
def startsFailure (s : String) : Bool :=
  listIsPrefix "⚠️".data s.data || listIsPrefix "⏰".data s.data ||
  listIsPrefix "❗".data s.data

/-- Python `'\n'.join(lines)`. -/
def joinNL : List String → String
  | [] => ""
  | [s] => s
  | s :: rest => s ++ "\n" ++ joinNL rest

/-- The Wrong Answer message built by `handlers/submit.py: judge_code`,
carrying the failing test case's input and the *normalized* expected and
actual text. -/
def wa_message (tc : TestCase) (result : String) : String :=
  "❌ Wrong Answer\n" ++ "\nTest case input:\n" ++ tc.input ++ "\n\n" ++
  "Expected output:\n" ++ joinNL (normalize_output tc.output) ++ "\n\n" ++
  "Your output:\n" ++ joinNL (normalize_output result)

/-- `handlers/submit.py: judge_code`.  The per-test-case execution
(`run_code_async`, i.e. `run_code(lang, code, tc["input"])`) is abstracted
as the oracle `runner : input ↦ result text`; the loop is the source's
`for tc in problem["test_cases"]`. -/
def judge_code (runner : String → String) (allow_unordered_output : Bool) :
    List TestCase → String
  | [] => "✅ Accepted"
  | tc :: rest =>
    let result := runner tc.input
    if startsFailure result then result
    else if !(compare_outputs tc.output result allow_unordered_output) then
      wa_message tc result
    else judge_code runner allow_unordered_output rest

/-- Instrumentation of `judge_code`: how many times the runner is invoked
(one invocation per iterated test case). -/
def judge_calls (runner : String → String) (allow_unordered_output : Bool) :
    List TestCase → Nat
  | [] => 0
  | tc :: rest =>
    let result := runner tc.input
    if startsFailure result then 1
    else if !(compare_outputs tc.output result allow_unordered_output) then 1
    else 1 + judge_calls runner allow_unordered_output rest

/-- A test case passes when the runner outcome is not a classified failure
and the comparator accepts the output. -/
def tcPass (runner : String → String) (allow : Bool) (tc : TestCase) : Prop :=
  startsFailure (runner tc.input) = false ∧
  compare_outputs tc.output (runner tc.input) allow = true

instance (runner : String → String) (allow : Bool) (tc : TestCase) :
    Decidable (tcPass runner allow tc) := by
  unfold tcPass
  infer_instance

/-- The verdict `judge_code` produces at a failing test case: the runner's
classified failure text verbatim, or the Wrong Answer message. -/
def failVerdict (runner : String → String) (tc : TestCase) : String :=
  if startsFailure (runner tc.input) then runner tc.input
  else wa_message tc (runner tc.input)

/-- Apply `f` to the last element of a list (helper for reasoning about
`splitCh` of an extended string). -/
def modLast {α : Type} (f : α → α) : List α → List α
  | [] => []
  | [a] => [f a]
  | a :: b :: rest => a :: modLast f (b :: rest)

/-- Texts whose only line-boundary character is `\n`: on these, Python's
`split('\n')` and `splitlines()` agree up to a trailing empty piece. -/
def cleanText (s : String) : Prop :=
  ∀ c ∈ s.data, isLineBoundary c = true → c = '\n'

instance (s : String) : Decidable (cleanText s) := by
  unfold cleanText
  infer_instance

/-- The payload of an HTTP submission job
(`keep_alive.py: api_submit` → `create_job({...})`). -/
structure JobPayload where
  user_id : Int
  problem_id : Int
  language : String
  code : String
deriving DecidableEq

/-- The result dict returned by `_process_submission_job`
(`{"ok": ..., "verdict": ..., ["expected": ..., "actual": ...]}`). -/
structure JobResult where
  ok : Bool
  verdict : String
  expected : Option String
  actual : Option String
deriving DecidableEq

/-- The keyed user store (`users_col`), as user id ↦ document. -/
abbrev UserStore := List (Int × UserRecord)

/-- The message of the `AttributeError` Python raises on the accepted path
of `_process_submission_job`: the module `user_utils` defines no function
`update_user_score` (nor `add_solved_problem`), so looking the attribute up
raises before anything is called. -/
def attributeErrorMsg : String :=
  "module 'user_utils' has no attribute 'update_user_score'"

/-- The test-case loop of `keep_alive.py: _process_submission_job`.
`runner lang code input` abstracts `run_code(lang, code, tc["input"])`.
Returns `some result` when the loop returns early (classified runner
failure, or mismatch under the ordered/unordered comparison of stripped
text), `none` when every test case passes. -/
def processTCs (runner : String → String → String → String)
    (lang code : String) (allow : Bool) : List TestCase → Option JobResult
  | [] => none
  | tc :: rest =>
    let out := runner lang code tc.input
    if startsFailure out then some ⟨false, out, none, none⟩
    else if allow then
      if !(http_unordered_match tc.output out) then
        some ⟨true, "WA", some (pyStrip tc.output), some (pyStrip out)⟩
      else processTCs runner lang code allow rest
    else
      if !(http_ordered_match tc.output out) then
        some ⟨true, "WA", some (pyStrip tc.output), some (pyStrip out)⟩
      else processTCs runner lang code allow rest

/-- `keep_alive.py: _process_submission_job` as a transformer of the user
store, returning `Except.error` for a raised Python exception.  On the
all-tests-pass path the source calls the nonexistent
`user_utils.update_user_score` — an `AttributeError` raised before any user
mutation — so that path is `Except.error attributeErrorMsg` with the store
untouched.  No other path touches the user store at all. -/
def _process_submission_job (problems : Int → Option Problem)
    (runner : String → String → String → String) (payload : JobPayload)
    (store : UserStore) : Except String JobResult × UserStore :=
  match problems payload.problem_id with
  | none => (Except.ok ⟨false, "Problem not found", none, none⟩, store)
  | some prob =>
    match processTCs runner payload.language payload.code
        prob.allow_unordered_output prob.test_cases with
    | some res => (Except.ok res, store)
    | none => (Except.error attributeErrorMsg, store)

/-- Job status (`utils/job_queue.py`). -/
inductive JobStatus where
  | queued
  | running
  | done
  | error
deriving DecidableEq

/-- A job record in `_jobs` (timestamps omitted; ids are the map keys). -/
structure Job where
  payload : JobPayload
  status : JobStatus
  result : Option JobResult
  error : Option String
deriving DecidableEq

/-- The shared state of `utils/job_queue.py`: the `_jobs` table (job id ↦
record), the FIFO `_job_queue` of pending ids, and the user store the
process function may touch. -/
structure SystemState where
  jobs : List (Nat × Job)
  fifo : List Nat
  store : UserStore
deriving DecidableEq

/-- Replace the record stored under an existing job id. -/
def setJob (jid : Nat) (j : Job) : List (Nat × Job) → List (Nat × Job)
  | [] => []
  | (k, v) :: rest => if k == jid then (k, j) :: rest else (k, v) :: setJob jid j rest

/-- The terminal record `_worker_loop` leaves for a job: `status=done` with
the result on success, `status=error` with the exception's message
(`str(e)`) in the `error` field on failure. -/
def applyOutcome (job : Job) (out : Except String JobResult) : Job :=
  match out with
  | Except.ok r => { job with status := JobStatus.done, result := some r }
  | Except.error e => { job with status := JobStatus.error, error := some e }

/-- One iteration of `utils/job_queue.py: _worker_loop`: dequeue the next
id; skip it if no record exists; otherwise run `process_fn` on its payload
(threading the user store) and store the terminal outcome.  An empty queue
blocks, modelled as a no-op step. -/
def worker_step (process : JobPayload → UserStore → Except String JobResult × UserStore)
    (st : SystemState) : SystemState :=
  match st.fifo with
  | [] => st
  | jid :: rest =>
    match List.lookup jid st.jobs with
    | none => { st with fifo := rest }
    | some job =>
      let pr := process job.payload st.store
      ⟨setJob jid (applyOutcome job pr.1) st.jobs, rest, pr.2⟩

/-- `n` iterations of the worker loop. -/
def worker_run (process : JobPayload → UserStore → Except String JobResult × UserStore) :
    Nat → SystemState → SystemState
  | 0, st => st
  | n + 1, st => worker_run process n (worker_step process st)

/-- A user document as read by `handlers/rankings.py` (fields beyond the
ranking keys are irrelevant there). -/
structure RankUser where
  username : String
  rating : Int
  wrong_problems : List Int
  registered_at : Option String
deriving DecidableEq

/-- Decimal digit value of a character, if any. -/
def digitVal? (c : Char) : Option Nat :=
  if 48 ≤ c.toNat ∧ c.toNat ≤ 57 then some (c.toNat - 48) else none

/-- Parse exactly two digits. -/
def parse2 : List Char → Option (Nat × List Char)
  | a :: b :: rest => do
    let x ← digitVal? a
    let y ← digitVal? b
    pure (10 * x + y, rest)
  | _ => none

/-- Parse exactly four digits. -/
def parse4 : List Char → Option (Nat × List Char)
  | a :: b :: c :: d :: rest => do
    let x ← digitVal? a
    let y ← digitVal? b
    let z ← digitVal? c
    let w ← digitVal? d
    pure (1000 * x + 100 * y + 10 * z + w, rest)
  | _ => none

/-- Consume one expected literal character. -/
def expectChar (c : Char) : List Char → Option (List Char)
  | x :: rest => if x == c then some rest else none
  | [] => none

/-- Gregorian leap year (as `datetime` validates dates). -/
def isLeapYear (y : Nat) : Bool :=
  (y % 4 == 0 && y % 100 != 0) || y % 400 == 0

/-- Days in a month (as `datetime` validates dates). -/
def daysInMonth (y mo : Nat) : Nat :=
  if mo == 2 then (if isLeapYear y then 29 else 28)
  else if mo == 4 || mo == 6 || mo == 9 || mo == 11 then 30
  else 31

/-- Parse `"%Y-%m-%d %H:%M:%S"` with zero-padded fields, validating ranges
the way `datetime.strptime` does, into `[y, mo, d, h, mi, s, microsecond]`.
(CPython additionally accepts unpadded 1-digit fields; the timestamps in
the theorems below are all zero-padded, where the two agree.) -/
def parseDT (l : List Char) : Option (List Nat) := do
  let (y, l) ← parse4 l
  let l ← expectChar '-' l
  let (mo, l) ← parse2 l
  let l ← expectChar '-' l
  let (d, l) ← parse2 l
  let l ← expectChar ' ' l
  let (h, l) ← parse2 l
  let l ← expectChar ':' l
  let (mi, l) ← parse2 l
  let l ← expectChar ':' l
  let (se, l) ← parse2 l
  if l = [] ∧ 1 ≤ mo ∧ mo ≤ 12 ∧ 1 ≤ d ∧ d ≤ daysInMonth y mo ∧
      h ≤ 23 ∧ mi ≤ 59 ∧ se ≤ 59 then
    pure [y, mo, d, h, mi, se, 0]
  else none

/-- `datetime.max` = 9999-12-31 23:59:59.999999, the sort key
`handlers/rankings.py: parse_time` returns for unparsable timestamps. -/
def datetimeMax : List Nat := [9999, 12, 31, 23, 59, 59, 999999]

/-- `handlers/rankings.py: parse_time`: a `datetime` compares as the tuple
of its fields, so the key is the field list, with `datetime.max` for
anything `strptime` (or the `datetime` constructor) rejects. -/
def parse_time (s : String) : List Nat :=
  match parseDT s.data with
  | some dt => dt
  | none => datetimeMax

/-- Lexicographic comparison of equal-length `Nat` lists (how `datetime`
values compare as sort-key components). -/
def listNatLe : List Nat → List Nat → Bool
  | [], _ => true
  | _ :: _, [] => false
  | a :: as, b :: bs => if a < b then true else if b < a then false else listNatLe as bs

/-- The default used for a missing `registered_at` field. -/
def defaultRegistered : String := "9999-12-31 23:59:59"

/-- The sort key of `get_sorted_users`:
`(-rating, len(wrong_problems), parse_time(registered_at))`. -/
def rankKeySort (u : RankUser) : Int × Nat × List Nat :=
  (-u.rating, u.wrong_problems.length, parse_time (u.registered_at.getD defaultRegistered))

/-- Lexicographic comparison of sort keys (Python tuple comparison). -/
def sortKeyLe (a b : Int × Nat × List Nat) : Bool :=
  if a.1 < b.1 then true else if b.1 < a.1 then false
  else if a.2.1 < b.2.1 then true else if b.2.1 < a.2.1 then false
  else listNatLe a.2.2 b.2.2

/-- `handlers/rankings.py: get_sorted_users` (`sorted` with the key above). -/
def get_sorted_users (users : List RankUser) : List RankUser :=
  sortLe (fun u v => sortKeyLe (rankKeySort u) (rankKeySort v)) users

/-- The tie-detection key `build_ranking_message` compares between
consecutive rows: `(rating, len(wrong_problems), registered_at)` with the
*raw* `registered_at` string. -/
def displayKey (u : RankUser) : Int × Nat × String :=
  (u.rating, u.wrong_problems.length, u.registered_at.getD defaultRegistered)

/-- The rank-assignment loop of `build_ranking_message`:
`actual_pos` counts rows from the start of the page slice, and the printed
rank is refreshed to `actual_pos` whenever the key differs from the
previous row's (`prev_key` starts as `None`). -/
def rankRowsGo (prev : Option (Int × Nat × String)) (actual_pos rank : Nat) :
    List RankUser → List (Nat × RankUser)
  | [] => []
  | u :: rest =>
    let pos := actual_pos + 1
    let key := displayKey u
    let rank' := if prev == some key then rank else pos
    (rank', u) :: rankRowsGo (some key) pos rank' rest

/-- `handlers/rankings.py: ITEMS_PER_PAGE`. -/
def ITEMS_PER_PAGE : Nat := 10

/-- The `(rank, user)` rows printed by
`handlers/rankings.py: build_ranking_message(page)`; `none` when the page
number is rejected as invalid. -/
def build_ranking_rows (users : List RankUser) (page : Nat) : Option (List (Nat × RankUser)) :=
  let sorted_users := get_sorted_users users
  let total_users := sorted_users.length
  let total_pages := (total_users + ITEMS_PER_PAGE - 1) / ITEMS_PER_PAGE
  if page < 1 ∨ total_pages < page then none
  else
    let start_idx := (page - 1) * ITEMS_PER_PAGE
    let end_idx := min (start_idx + ITEMS_PER_PAGE) total_users
    some (rankRowsGo none 0 0 ((sorted_users.drop start_idx).take (end_idx - start_idx)))

/-- A demonstration user for the ranking theorems. -/
def demoUser (r : Int) : RankUser := ⟨"", r, [], none⟩

/-- Eleven users with pairwise distinct ratings 11, 10, ..., 1. -/
def demoUsers : List RankUser :=
  (List.range 11).map (fun i => demoUser (Int.ofNat (11 - i)))

/-- A problem with a single test case, Easy level, ordered comparison. -/
def demoProblem : Problem := ⟨1, "p", "Easy", [⟨"in", "out"⟩], false⟩

/-- A problem store holding only `demoProblem` under id 1. -/
def demoProblems : Int → Option Problem :=
  fun i => if i = 1 then some demoProblem else none

/-- A runner whose every execution exceeds the 3-second limit: `run_code`
returns the `subprocess.TimeoutExpired` marker text. -/
def demoTLERunner : String → String → String → String :=
  fun _ _ _ => "⏰ Time Limit Exceeded"

/-- A queued job for user 7 on problem 1. -/
def demoJob : Job := ⟨⟨7, 1, "py", "while True: pass"⟩, JobStatus.queued, none, none⟩

/-- A system state with the single queued `demoJob` and user 7 fresh. -/
def demoState : SystemState := ⟨[(0, demoJob)], [0], [(7, initialUser)]⟩

/-- A second queued job (user 8, problem 2) for the worker-loop witness. -/
def demoJob2 : Job := ⟨⟨8, 2, "py", "print(1)"⟩, JobStatus.queued, none, none⟩

/-- A two-job queue whose first job's processing raises an exception. -/
def c8state : SystemState := ⟨[(0, demoJob), (1, demoJob2)], [0, 1], []⟩

/-- A process function that raises (returns `Except.error`) on problem 1 and
succeeds on everything else. -/
def c8process : JobPayload → UserStore → Except String JobResult × UserStore :=
  fun p s =>
    if p.problem_id = 1 then (Except.error "boom", s)
    else (Except.ok ⟨true, "AC", none, none⟩, s)

/-- A runner that prints the expected output of `demoProblem`. -/
def demoOKRunner : String → String → String → String :=
  fun _ _ _ => "out"

/-- A queued job for user 7 on problem 1 whose code passes every test. -/
def demoOKJob : Job := ⟨⟨7, 1, "py", "print(1)"⟩, JobStatus.queued, none, none⟩

/-- A system state with the single queued `demoOKJob` and user 7 fresh. -/
def demoOKState : SystemState := ⟨[(0, demoOKJob)], [0], [(7, initialUser)]⟩

/-! ## Theorems: rating ledger (C1, C2, C10) -/

/-- C1 counterexample: the claim says a problem id belongs to at most one of
`accepted_problems` / `wrong_problems` after any `update_user_rating` call.
Starting from a fresh user, a Wrong Answer on problem 1 followed by an
Accepted verdict on problem 1 leaves the id in *both* lists: the Accepted
branch appends to `accepted_problems` but never removes the id from
`wrong_problems`. -/
theorem c1_counterexample :
    1 ∈ (update_user_rating
          (update_user_rating initialUser "Easy" 1 none (some "❌ Wrong Answer"))
          "Easy" 1 none (some "✅ Accepted")).accepted_problems ∧
    1 ∈ (update_user_rating
          (update_user_rating initialUser "Easy" 1 none (some "❌ Wrong Answer"))
          "Easy" 1 none (some "✅ Accepted")).wrong_problems := by
  decide

/-- C1 (amended): `update_user_rating` never removes a problem id from
`accepted_problems` and never appends one that is already there, and it
appends to `wrong_problems` only when the id is in neither list — but the
two lists are not mutually exclusive: an Accepted verdict for a problem
already in `wrong_problems` adds it to `accepted_problems` without removing
it from `wrong_problems`. -/
theorem c1_amended (u : UserRecord) (level : String) (pid : Int)
    (sub : Option Submission) (verdict : Option String) :
    (pid ∈ u.accepted_problems →
      (update_user_rating u level pid sub verdict).accepted_problems = u.accepted_problems) ∧
    ((update_user_rating u level pid sub verdict).accepted_problems = u.accepted_problems ∨
      ((update_user_rating u level pid sub verdict).accepted_problems
          = u.accepted_problems ++ [pid] ∧ pid ∉ u.accepted_problems)) ∧
    ((update_user_rating u level pid sub verdict).wrong_problems = u.wrong_problems ∨
      ((update_user_rating u level pid sub verdict).wrong_problems
          = u.wrong_problems ++ [pid] ∧ pid ∉ u.wrong_problems ∧ pid ∉ u.accepted_problems)) := by
  unfold update_user_rating
  cases sub <;> simp only [] <;> split_ifs <;> simp_all

/-- C1 witness: the amended theorem applied to a concrete user that already
accepted problem 2. -/
theorem c1_witness :
    (2 : Int) ∈ (⟨5, 1, 5, [], [2], []⟩ : UserRecord).accepted_problems ∧
    (update_user_rating ⟨5, 1, 5, [], [2], []⟩ "Easy" 2 none
        (some "✅ Accepted")).accepted_problems
      = (⟨5, 1, 5, [], [2], []⟩ : UserRecord).accepted_problems :=
  ⟨by decide,
   (c1_amended ⟨5, 1, 5, [], [2], []⟩ "Easy" 2 none (some "✅ Accepted")).1 (by decide)⟩

/-- C2: applying an Accepted verdict twice for the same user/problem through
`update_user_rating` adds the level's points to `rating` and `total_rating`
exactly once (on the first application), while `submission_count` increases
on both applications. -/
theorem c2_ledger_idempotent (u : UserRecord) (level : String) (pid : Int)
    (s1 s2 : Option Submission) (hnot : pid ∉ u.accepted_problems) :
    (update_user_rating u level pid s1 (some "✅ Accepted")).rating
        = u.rating + LEVEL_RATING level ∧
    (update_user_rating (update_user_rating u level pid s1 (some "✅ Accepted"))
        level pid s2 (some "✅ Accepted")).rating
        = u.rating + LEVEL_RATING level ∧
    (update_user_rating u level pid s1 (some "✅ Accepted")).total_rating
        = u.total_rating + LEVEL_RATING level ∧
    (update_user_rating (update_user_rating u level pid s1 (some "✅ Accepted"))
        level pid s2 (some "✅ Accepted")).total_rating
        = u.total_rating + LEVEL_RATING level ∧
    (update_user_rating u level pid s1 (some "✅ Accepted")).submission_count
        = u.submission_count + 1 ∧
    (update_user_rating (update_user_rating u level pid s1 (some "✅ Accepted"))
        level pid s2 (some "✅ Accepted")).submission_count
        = u.submission_count + 2 := by
  unfold update_user_rating
  cases s1 <;> cases s2 <;>
    simp [hnot, List.mem_append] <;> omega

/-- C2 witness: the idempotence theorem at a fresh user, problem 3, level
Easy. -/
theorem c2_witness :
    (3 : Int) ∉ initialUser.accepted_problems ∧
    (update_user_rating (update_user_rating initialUser "Easy" 3 none (some "✅ Accepted"))
        "Easy" 3 none (some "✅ Accepted")).rating
      = initialUser.rating + LEVEL_RATING "Easy" :=
  ⟨by decide,
   ((c2_ledger_idempotent initialUser "Easy" 3 none none (by decide)).2).1⟩

/-- C10: on the Telegram path the judged submission record is appended to
`submissions` twice — once by the explicit `save_submission` call and once
by the `$push` inside `update_user_rating` (which receives the same record
as its `submission` argument) — while `submission_count` grows by one. -/
theorem c10_double_append (u : UserRecord) (level : String) (pid : Int)
    (record : Submission) (verdict : String) :
    (process_submission_user (some u) level pid record verdict).submissions
        = u.submissions ++ [record, record] ∧
    (process_submission_user (some u) level pid record verdict).submission_count
        = u.submission_count + 1 := by
  unfold process_submission_user update_user_rating save_submission ensure_user_init
  split_ifs <;> simp

/-! ## Theorems: judge orchestrator (C5) -/

/-- C5: `judge_code` walks the test cases in problem order and stops at the
first failing one.  If every test case before `bad` passes and `bad` fails,
the verdict is `bad`'s classified failure text or its Wrong Answer message
(carrying the normalized expected/actual text of that first failing case),
and the runner is invoked exactly `pre.length + 1` times — never on the
remaining test cases.  If every test case passes the verdict is
`✅ Accepted` and the runner runs once per test case. -/
theorem c5_judge_short_circuit (runner : String → String) (allow : Bool) :
    (∀ pre bad post, (∀ tc ∈ pre, tcPass runner allow tc) → ¬ tcPass runner allow bad →
      judge_code runner allow (pre ++ bad :: post) = failVerdict runner bad ∧
      judge_calls runner allow (pre ++ bad :: post) = pre.length + 1) ∧
    (∀ tcs, (∀ tc ∈ tcs, tcPass runner allow tc) →
      judge_code runner allow tcs = "✅ Accepted" ∧
      judge_calls runner allow tcs = tcs.length) := by
  constructor
  · intro pre bad post hpre hbad
    induction pre with
    | nil =>
      simp only [List.nil_append, judge_code, judge_calls, List.length_nil]
      rcases hsf : startsFailure (runner bad.input) with _ | _
      · have hcmp : compare_outputs bad.output (runner bad.input) allow = false := by
          rcases hc : compare_outputs bad.output (runner bad.input) allow with _ | _
          · rfl
          · exact absurd ⟨hsf, hc⟩ hbad
        simp [hsf, hcmp, failVerdict, wa_message]
      · simp [hsf, failVerdict]
    | cons tc pre ih =>
      have hp : tcPass runner allow tc := hpre tc (by simp)
      have hrest : ∀ t ∈ pre, tcPass runner allow t := fun t ht => hpre t (by simp [ht])
      obtain ⟨ih1, ih2⟩ := ih hrest
      refine ⟨?_, ?_⟩
      · simp [List.cons_append, judge_code, hp.1, hp.2, ih1]
      · simp [List.cons_append, judge_calls, hp.1, hp.2, ih2]
        omega
  · intro tcs hall
    induction tcs with
    | nil => simp [judge_code, judge_calls]
    | cons tc rest ih =>
      have hp : tcPass runner allow tc := hall tc (by simp)
      obtain ⟨ih1, ih2⟩ := ih (fun t ht => hall t (by simp [ht]))
      refine ⟨?_, ?_⟩
      · simp [judge_code, hp.1, hp.2, ih1]
      · simp [judge_calls, hp.1, hp.2, ih2]
        omega

/-- C5 witness: with an echo runner, a passing first test, a mismatching
second test and a third test that is never run, the verdict is the second
test's Wrong Answer message after exactly two runner invocations. -/
theorem c5_witness :
    (∀ tc ∈ [TestCase.mk "a" "a"], tcPass (fun s => s) false tc) ∧
    ¬ tcPass (fun s => s) false (TestCase.mk "b" "c") ∧
    judge_code (fun s => s) false
        ([TestCase.mk "a" "a"] ++ TestCase.mk "b" "c" :: [TestCase.mk "d" "d"])
      = failVerdict (fun s => s) (TestCase.mk "b" "c") ∧
    judge_calls (fun s => s) false
        ([TestCase.mk "a" "a"] ++ TestCase.mk "b" "c" :: [TestCase.mk "d" "d"]) = 2 :=
  ⟨by decide, by decide,
   ((c5_judge_short_circuit (fun s => s) false).1 [TestCase.mk "a" "a"]
      (TestCase.mk "b" "c") [TestCase.mk "d" "d"] (by decide) (by decide)).1,
   ((c5_judge_short_circuit (fun s => s) false).1 [TestCase.mk "a" "a"]
      (TestCase.mk "b" "c") [TestCase.mk "d" "d"] (by decide) (by decide)).2⟩

/-! ## Helper lemmas: normalization -/

theorem dropEnd_concat_pos (p : Char → Bool) (c : Char) (l : List Char)
    (h : p c = true) : dropEnd p (l ++ [c]) = dropEnd p l := by
  simp [dropEnd, List.dropWhile_cons, h]

theorem dropEnd_concat_neg (p : Char → Bool) (c : Char) (l : List Char)
    (h : p c = false) : dropEnd p (l ++ [c]) = l ++ [c] := by
  simp [dropEnd, List.dropWhile_cons, h]

theorem stripL_cons_ws (c : Char) (l : List Char) (h : pyWS c = true) :
    stripL (c :: l) = stripL l := by
  simp [stripL, List.dropWhile_cons, h]

theorem stripL_concat_ws (c : Char) (h : pyWS c = true) :
    ∀ l : List Char, stripL (l ++ [c]) = stripL l := by
  intro l
  induction l with
  | nil => simp [stripL, List.dropWhile_cons, h, dropEnd]
  | cons a l ih =>
    by_cases ha : pyWS a = true
    · rw [List.cons_append, stripL_cons_ws a _ ha, ih, stripL_cons_ws a _ ha]
    · have ha' : pyWS a = false := by simpa [Bool.not_eq_true] using ha
      simp only [stripL, List.cons_append, List.dropWhile_cons, ha', Bool.false_eq_true,
        if_false]
      rw [← List.cons_append, dropEnd_concat_pos _ _ _ h]

theorem splitCh_ne_nil (l : List Char) : splitCh l ≠ [] := by
  cases l with
  | nil => simp [splitCh]
  | cons c cs =>
    simp only [splitCh]
    rcases hs : splitCh cs with _ | ⟨h, t⟩ <;> simp [hs]
    split <;> simp

theorem splitCh_concat (c : Char) :
    ∀ l : List Char, splitCh (l ++ [c]) =
      if c == '\n' then splitCh l ++ [[]]
      else modLast (fun x => x ++ [c]) (splitCh l) := by
  intro l
  induction l with
  | nil =>
    by_cases hc : c == '\n' <;> simp [splitCh, modLast, hc]
  | cons a l ih =>
    obtain ⟨h', t', hsplit⟩ : ∃ h' t', splitCh l = h' :: t' := by
      rcases hs : splitCh l with _ | ⟨h', t'⟩
      · exact absurd hs (splitCh_ne_nil l)
      · exact ⟨h', t', rfl⟩
    by_cases hc : c == '\n'
    · simp only [hc, if_true] at ih ⊢
      rw [List.cons_append, splitCh.eq_2, ih, hsplit, splitCh.eq_2, hsplit]
      by_cases ha : a == '\n' <;> simp [ha]
    · simp only [hc, if_false] at ih ⊢
      rw [hsplit] at ih
      rw [List.cons_append, splitCh.eq_2, ih, splitCh.eq_2, hsplit]
      rcases ht' : t' with _ | ⟨y, ys⟩ <;>
        by_cases ha : a == '\n' <;> simp [ha, modLast]

theorem modLast_map_congr {α : Type} (f g : α → α) (hfg : ∀ x, f (g x) = f x) :
    ∀ L : List α, (modLast g L).map f = L.map f
  | [] => rfl
  | [a] => by simp [modLast, hfg]
  | a :: b :: rest => by
    simp [modLast, modLast_map_congr f g hfg (b :: rest)]

theorem specNormalizeL_concat_ws (c : Char) (l : List Char) (h : pyWS c = true) :
    specNormalizeL (l ++ [c]) = specNormalizeL l := by
  by_cases hc : c == '\n'
  · simp [specNormalizeL, splitCh_concat, hc, stripL, dropEnd, nonEmptyLine]
  · simp only [specNormalizeL, splitCh_concat, hc, Bool.false_eq_true, if_false]
    rw [modLast_map_congr stripL (fun x => x ++ [c]) (fun x => stripL_concat_ws c h x)]

theorem specNormalizeL_cons_ws (c : Char) (l : List Char) (h : pyWS c = true) :
    specNormalizeL (c :: l) = specNormalizeL l := by
  obtain ⟨h', t', hsplit⟩ : ∃ h' t', splitCh l = h' :: t' := by
    rcases hs : splitCh l with _ | ⟨h', t'⟩
    · exact absurd hs (splitCh_ne_nil l)
    · exact ⟨h', t', rfl⟩
  by_cases hc : c == '\n'
  · simp only [specNormalizeL]
    rw [splitCh.eq_2, hsplit]
    simp [hc, nonEmptyLine, stripL, dropEnd, hsplit]
  · simp only [specNormalizeL]
    rw [splitCh.eq_2, hsplit]
    simp [hc, hsplit, stripL_cons_ws c h' h]

theorem specNormalizeL_dropWhile (l : List Char) :
    specNormalizeL (l.dropWhile pyWS) = specNormalizeL l := by
  induction l with
  | nil => rfl
  | cons a l ih =>
    by_cases ha : pyWS a = true
    · rw [List.dropWhile_cons, if_pos ha, ih, specNormalizeL_cons_ws a l ha]
    · rw [List.dropWhile_cons, if_neg (by simp [ha])]

theorem specNormalizeL_dropEnd (l : List Char) :
    specNormalizeL (dropEnd pyWS l) = specNormalizeL l := by
  induction l using List.reverseRecOn with
  | nil => rfl
  | append_singleton l a ih =>
    by_cases ha : pyWS a = true
    · have hde : dropEnd pyWS (l ++ [a]) = dropEnd pyWS l := by
        simp [dropEnd, List.dropWhile_cons, ha]
      rw [hde, ih, specNormalizeL_concat_ws a l ha]
    · have hde : dropEnd pyWS (l ++ [a]) = l ++ [a] := by
        simp [dropEnd, List.dropWhile_cons, ha]
      rw [hde]

/-- `normalize_output`'s leading `text.strip()` is absorbed by the per-line
trimming and blank-line filtering: the source's normalization computes
exactly the spec's §4.2 `normalize` contract. -/
theorem normalizeL_eq_spec (l : List Char) : normalizeL l = specNormalizeL l := by
  show specNormalizeL (stripL l) = specNormalizeL l
  rw [stripL, specNormalizeL_dropEnd, specNormalizeL_dropWhile]

theorem normalize_output_eq_spec (s : String) : normalize_output s = specNormalize s := by
  unfold normalize_output specNormalize
  rw [normalizeL_eq_spec]

/-! ## Helper lemmas: sorting -/

theorem listCharLe_total (a : List Char) :
    ∀ b, listCharLe a b = true ∨ listCharLe b a = true := by
  induction a with
  | nil => intro b; left; rfl
  | cons x xs ih =>
    intro b
    cases b with
    | nil => right; rfl
    | cons y ys =>
      simp only [listCharLe]
      rcases Nat.lt_trichotomy x.toNat y.toNat with h | h | h
      · left; rw [if_pos h]
      · rw [if_neg (by omega), if_neg (by omega), if_neg (by omega), if_neg (by omega)]
        exact ih ys
      · right; rw [if_pos h]

theorem listCharLe_antisymm (a : List Char) :
    ∀ b, listCharLe a b = true → listCharLe b a = true → a = b := by
  induction a with
  | nil =>
    intro b h1 h2
    cases b with
    | nil => rfl
    | cons y ys => exact absurd h2 (by simp [listCharLe])
  | cons x xs ih =>
    intro b h1 h2
    cases b with
    | nil => exact absurd h1 (by simp [listCharLe])
    | cons y ys =>
      simp only [listCharLe] at h1 h2
      rcases Nat.lt_trichotomy x.toNat y.toNat with h | h | h
      · rw [if_neg (by omega), if_pos h] at h2
        exact absurd h2 (by simp)
      · rw [if_neg (by omega), if_neg (by omega)] at h1
        rw [if_neg (by omega), if_neg (by omega)] at h2
        rw [Char.ext (UInt32.ext h), ih ys h1 h2]
      · rw [if_neg (by omega), if_pos h] at h1
        exact absurd h1 (by simp)

theorem listCharLe_trans (a : List Char) :
    ∀ b c, listCharLe a b = true → listCharLe b c = true → listCharLe a c = true := by
  induction a with
  | nil => intro b c _ _; rfl
  | cons x xs ih =>
    intro b c h1 h2
    cases b with
    | nil => exact absurd h1 (by simp [listCharLe])
    | cons y ys =>
      cases c with
      | nil => exact absurd h2 (by simp [listCharLe])
      | cons z zs =>
        simp only [listCharLe] at h1 h2 ⊢
        rcases Nat.lt_trichotomy x.toNat y.toNat with hxy | hxy | hxy <;>
          rcases Nat.lt_trichotomy y.toNat z.toNat with hyz | hyz | hyz
        · rw [if_pos (by omega)]
        · rw [if_pos (by omega)]
        · rw [if_neg (by omega), if_pos (by omega)] at h2
          exact absurd h2 (by simp)
        · rw [if_pos (by omega)]
        · rw [if_neg (by omega), if_neg (by omega)] at h1 h2 ⊢
          exact ih ys zs h1 h2
        · rw [if_neg (by omega), if_pos (by omega)] at h2
          exact absurd h2 (by simp)
        · rw [if_neg (by omega), if_pos (by omega)] at h1
          exact absurd h1 (by simp)
        · rw [if_neg (by omega), if_pos (by omega)] at h1
          exact absurd h1 (by simp)
        · rw [if_neg (by omega), if_pos (by omega)] at h1
          exact absurd h1 (by simp)

theorem strLe_total (s t : String) : strLe s t = true ∨ strLe t s = true :=
  listCharLe_total s.data t.data

theorem strLe_antisymm (s t : String) (h1 : strLe s t = true) (h2 : strLe t s = true) :
    s = t := by
  cases s with
  | mk ds =>
    cases t with
    | mk dt =>
      have : ds = dt := listCharLe_antisymm ds dt h1 h2
      rw [this]

theorem strLe_trans (s t u : String) (h1 : strLe s t = true) (h2 : strLe t u = true) :
    strLe s u = true :=
  listCharLe_trans s.data t.data u.data h1 h2

instance : IsAntisymm String (fun a b => strLe a b = true) :=
  ⟨fun a b => strLe_antisymm a b⟩

theorem insertLe_perm {α : Type} (le : α → α → Bool) (x : α) :
    ∀ l : List α, (insertLe le x l).Perm (x :: l) := by
  intro l
  induction l with
  | nil => exact List.Perm.refl _
  | cons y ys ih =>
    simp only [insertLe]
    by_cases h : le x y = true
    · rw [if_pos h]
    · rw [if_neg h]
      exact (ih.cons y).trans (List.Perm.swap x y ys)

theorem sortLe_perm {α : Type} (le : α → α → Bool) :
    ∀ l : List α, (sortLe le l).Perm l := by
  intro l
  induction l with
  | nil => exact List.Perm.refl _
  | cons x xs ih =>
    exact (insertLe_perm le x (sortLe le xs)).trans (ih.cons x)

theorem pairwise_insertLe {α : Type} (le : α → α → Bool)
    (htot : ∀ a b, le a b = false → le b a = true)
    (htrans : ∀ a b c, le a b = true → le b c = true → le a c = true)
    (x : α) : ∀ l : List α, List.Pairwise (fun a b => le a b = true) l →
      List.Pairwise (fun a b => le a b = true) (insertLe le x l) := by
  intro l
  induction l with
  | nil => intro _; simp [insertLe]
  | cons y ys ih =>
    intro hp
    rw [List.pairwise_cons] at hp
    simp only [insertLe]
    by_cases h : le x y = true
    · rw [if_pos h]
      rw [List.pairwise_cons]
      refine ⟨?_, List.pairwise_cons.mpr hp⟩
      intro z hz
      rcases List.mem_cons.mp hz with hz | hz
      · rw [hz]; exact h
      · exact htrans x y z h (hp.1 z hz)
    · rw [if_neg h]
      rw [List.pairwise_cons]
      refine ⟨?_, ih hp.2⟩
      intro z hz
      have hz' := (insertLe_perm le x ys).mem_iff.mp hz
      rcases List.mem_cons.mp hz' with hz' | hz'
      · rw [hz']
        exact htot x y (by simpa using h)
      · exact hp.1 z hz'

theorem sortLe_pairwise {α : Type} (le : α → α → Bool)
    (htot : ∀ a b, le a b = false → le b a = true)
    (htrans : ∀ a b c, le a b = true → le b c = true → le a c = true) :
    ∀ l : List α, List.Pairwise (fun a b => le a b = true) (sortLe le l) := by
  intro l
  induction l with
  | nil => simp [sortLe]
  | cons x xs ih => exact pairwise_insertLe le htot htrans x (sortLe le xs) ih

theorem pySort_sorted (l : List String) :
    List.Pairwise (fun a b => strLe a b = true) (pySort l) :=
  sortLe_pairwise strLe
    (fun a b h => (strLe_total a b).resolve_left (by simp [h])) strLe_trans l

/-- Sorting is a canonical form for permutation: two string lists have equal
`sorted` images exactly when they are permutations of each other (so
sorted-equality is duplicate-count-sensitive multiset equality). -/
theorem pySort_eq_iff_perm (l₁ l₂ : List String) :
    pySort l₁ = pySort l₂ ↔ l₁.Perm l₂ := by
  constructor
  · intro h
    have h' : (pySort l₁).Perm (pySort l₂) := by rw [h]
    exact ((sortLe_perm strLe l₁).symm.trans h').trans (sortLe_perm strLe l₂)
  · intro h
    exact List.eq_of_perm_of_sorted
      (((sortLe_perm strLe l₁).trans h).trans (sortLe_perm strLe l₂).symm)
      (pySort_sorted l₁) (pySort_sorted l₂)

/-! ## Theorems: output comparison (C3, C4) -/

/-- C3 counterexample: the claim says the ordered comparison matches exactly
when the normalized line sequences are identical on *both* judging paths.
`"a \nb"` and `"a\nb"` normalize to the same line sequence `["a", "b"]`
(per-line trimming removes the trailing space), so the claim requires a
match — but the HTTP job processor's ordered branch compares the raw
stripped texts, which differ, and reports a mismatch. -/
theorem c3_counterexample :
    specNormalize "a \nb" = specNormalize "a\nb" ∧
    http_ordered_match "a \nb" "a\nb" = false := by
  decide

/-- C3 (amended): the ordered Telegram comparator (`compare_outputs` with
the unordered flag false) matches exactly when the normalized line
sequences (trim each line, drop blanks, keep order and duplicates) are
identical.  The HTTP job processor's ordered branch instead compares the
globally stripped raw texts, which is strictly stricter: its matches imply
normalized-sequence equality but not conversely. -/
theorem c3_ordered_comparison (e a : String) :
    (compare_outputs e a false = true ↔ specNormalize e = specNormalize a) ∧
    (http_ordered_match e a = true → specNormalize e = specNormalize a) := by
  constructor
  · simp [compare_outputs, normalize_output_eq_spec]
  · intro h
    have hs : pyStrip e = pyStrip a := by simpa [http_ordered_match] using h
    have hdata : stripL e.data = stripL a.data := by
      have := congrArg String.data hs
      simpa [pyStrip] using this
    have he : specNormalize e = (specNormalizeL (stripL e.data)).map String.mk := by
      unfold specNormalize
      rw [← normalizeL_eq_spec e.data]
      rfl
    have ha : specNormalize a = (specNormalizeL (stripL a.data)).map String.mk := by
      unfold specNormalize
      rw [← normalizeL_eq_spec a.data]
      rfl
    rw [he, ha, hdata]

/-- C3 witness: the amended theorem applied at equal one-line texts. -/
theorem c3_witness :
    http_ordered_match "x" "x" = true ∧ specNormalize "x" = specNormalize "x" :=
  ⟨by decide, (c3_ordered_comparison "x" "x").2 (by decide)⟩

theorem splitlinesL_cons_ne_nil : ∀ (c : Char) (l : List Char), splitlinesL (c :: l) ≠ []
  | c, [] => by
    simp only [splitlinesL]
    split <;> simp
  | c, d :: rest => by
    simp only [splitlinesL]
    split
    · split <;> simp
    · split <;> simp

/-- On texts whose only line-boundary character is `\n`, `split('\n')`
produces exactly the `splitlines()` pieces plus one trailing empty piece
when the text is empty or ends in a newline. -/
theorem splitCh_clean_rel : ∀ l : List Char,
    (∀ c ∈ l, isLineBoundary c = true → c = '\n') →
    splitCh l = splitlinesL l ++
      (if l.getLast? = some '\n' ∨ l = [] then [[]] else [])
  | [], _ => by simp [splitCh, splitlinesL]
  | [c], h => by
    by_cases hb : isLineBoundary c = true
    · have hc : c = '\n' := h c (by simp) hb
      subst hc
      decide
    · have hc : c ≠ '\n' := fun hh => by rw [hh] at hb; exact hb (by decide)
      simp [splitCh, splitlinesL, hb, hc]
  | c :: d :: rest, h => by
    have hsub : ∀ x ∈ d :: rest, isLineBoundary x = true → x = '\n' :=
      fun x hx => h x (List.mem_cons_of_mem c hx)
    have ih := splitCh_clean_rel (d :: rest) hsub
    obtain ⟨h', t', hsl⟩ : ∃ h' t', splitlinesL (d :: rest) = h' :: t' := by
      rcases hx : splitlinesL (d :: rest) with _ | ⟨h', t'⟩
      · exact absurd hx (splitlinesL_cons_ne_nil d rest)
      · exact ⟨h', t', rfl⟩
    obtain ⟨h2, t2, hs2⟩ : ∃ h2 t2, splitCh (d :: rest) = h2 :: t2 := by
      rcases hx : splitCh (d :: rest) with _ | ⟨h2, t2⟩
      · exact absurd hx (splitCh_ne_nil _)
      · exact ⟨h2, t2, rfl⟩
    by_cases hb : isLineBoundary c = true
    · have hc : c = '\n' := h c (by simp) hb
      subst hc
      have hsc : splitCh ('\n' :: d :: rest) = [] :: splitCh (d :: rest) := by
        rw [splitCh.eq_2, hs2]
        simp
      have hsl2 : splitlinesL ('\n' :: d :: rest) = [] :: splitlinesL (d :: rest) := by
        have hnr : ('\n' == '\r') = false := by decide
        simp only [splitlinesL]
        rw [if_pos (by decide), if_neg (by simp [hnr])]
      rw [hsc, hsl2, ih, List.getLast?_cons_cons]
      simp
    · have hc : c ≠ '\n' := fun hh => by rw [hh] at hb; exact hb (by decide)
      have hcb : (c == '\n') = false := by simp [hc]
      have hsc : splitCh (c :: d :: rest) = (c :: h2) :: t2 := by
        rw [splitCh.eq_2, hs2]
        simp [hcb]
      have hsl2 : splitlinesL (c :: d :: rest) = (c :: h') :: t' := by
        simp only [splitlinesL]
        rw [if_neg (by simp [hb]), hsl]
      rw [hsc, hsl2, List.getLast?_cons_cons]
      rw [hs2, hsl] at ih
      by_cases hcond : (d :: rest).getLast? = some '\n'
      · simp only [hcond, true_or, if_true, List.cons_append] at ih ⊢
        injection ih with ih1 ih2
        rw [ih1, ih2]
      · simp only [hcond, List.cons_ne_nil, or_false, if_false, List.append_nil] at ih ⊢
        injection ih with ih1 ih2
        rw [ih1, ih2]

theorem mem_stripL {c : Char} {l : List Char} (h : c ∈ stripL l) : c ∈ l := by
  unfold stripL dropEnd at h
  rw [List.mem_reverse] at h
  have h2 := List.Sublist.mem h (List.dropWhile_sublist pyWS)
  rw [List.mem_reverse] at h2
  exact List.Sublist.mem h2 (List.dropWhile_sublist pyWS)

/-- On clean texts (no line-boundary characters other than `\n`) the HTTP
unordered normalization coincides with the Telegram one. -/
theorem http_normalize_eq_clean (s : String) (h : cleanText s) :
    http_normalize s = normalize_output s := by
  unfold http_normalize normalize_output normalizeL
  have hclean : ∀ c ∈ stripL s.data, isLineBoundary c = true → c = '\n' :=
    fun c hc => h c (mem_stripL hc)
  rw [splitCh_clean_rel _ hclean]
  by_cases hcond : (stripL s.data).getLast? = some '\n' ∨ stripL s.data = [] <;>
    simp [hcond, stripL, dropEnd, nonEmptyLine]

/-- C4 counterexample: the claim says the unordered comparison matches
exactly when the sorted normalized line sequences are equal, on both
judging paths.  With expected `"a\rb"` and actual `"a\nb"`, the normalized
line sequences (`split('\n')`-based, as the comparator contract defines
lines) are `["a\rb"]` vs `["a", "b"]` — unequal even sorted, so the claim
requires a mismatch — but the HTTP processor's unordered branch splits at
every Python line boundary (`splitlines()`), treats the lone `\r` as a line
break, and reports a match. -/
theorem c4_counterexample :
    http_unordered_match "a\rb" "a\nb" = true ∧
    pySort (specNormalize "a\rb") ≠ pySort (specNormalize "a\nb") := by
  decide

/-- C4 (amended): the Telegram unordered comparator matches exactly when
the sorted normalized line sequences are equal; consequently it is
invariant under any permutation of the non-blank lines of either input
while staying sensitive to per-line multiplicity (a duplicated expected
line without a duplicated actual line mismatches).  The HTTP processor's
unordered branch computes the same test with `splitlines()` in place of
`split('\n')`, so it agrees with the claim on every text whose only
line-boundary character is `\n` and disagrees only on texts containing a
bare `\r` or another non-`\n` Python line boundary. -/
theorem c4_unordered_comparison (e a e2 a2 : String) :
    (compare_outputs e a true = true ↔
      pySort (specNormalize e) = pySort (specNormalize a)) ∧
    ((specNormalize e).Perm (specNormalize e2) →
      (specNormalize a).Perm (specNormalize a2) →
      compare_outputs e a true = compare_outputs e2 a2 true) ∧
    (cleanText e → cleanText a →
      http_unordered_match e a = compare_outputs e a true) ∧
    compare_outputs "x\nx\ny" "x\ny" true = false := by
  refine ⟨?_, ?_, ?_, by decide⟩
  · simp [compare_outputs, normalize_output_eq_spec]
  · intro hpe hpa
    have he : pySort (specNormalize e) = pySort (specNormalize e2) :=
      (pySort_eq_iff_perm _ _).mpr hpe
    have ha : pySort (specNormalize a) = pySort (specNormalize a2) :=
      (pySort_eq_iff_perm _ _).mpr hpa
    simp [compare_outputs, normalize_output_eq_spec, he, ha]
  · intro hce hca
    simp [http_unordered_match, compare_outputs,
      http_normalize_eq_clean e hce, http_normalize_eq_clean a hca]

/-- C4 witness: the amended theorem applied at concrete texts — permuting
the expected lines leaves the unordered verdict unchanged, and on
newline-only texts the HTTP branch equals the Telegram comparator. -/
theorem c4_witness :
    compare_outputs "q\np" "x" true = compare_outputs "p\nq" "x" true ∧
    http_unordered_match "p" "q" = compare_outputs "p" "q" true :=
  ⟨(c4_unordered_comparison "q\np" "x" "p\nq" "x").2.1 (by decide) (by decide),
   (c4_unordered_comparison "p" "q" "p" "q").2.2.1 (by decide) (by decide)⟩

/-! ## Helper lemmas: job queue worker -/

theorem lookup_setJob_other (jid k : Nat) (j : Job) (hk : k ≠ jid) :
    ∀ jobs : List (Nat × Job), List.lookup k (setJob jid j jobs) = List.lookup k jobs := by
  intro jobs
  induction jobs with
  | nil => rfl
  | cons p rest ih =>
    obtain ⟨k1, v1⟩ := p
    simp only [setJob]
    by_cases h1 : (k1 == jid) = true
    · rw [if_pos h1]
      have hx : k1 = jid := by simpa using h1
      subst hx
      have hkk : (k == k1) = false := by simpa using hk
      simp [List.lookup, hkk]
    · rw [if_neg h1]
      by_cases h2 : (k == k1) = true
      · simp [List.lookup, h2]
      · simp only [Bool.not_eq_true] at h2
        simp [List.lookup, h2, ih]

theorem lookup_setJob_self (jid : Nat) (j : Job) :
    ∀ jobs : List (Nat × Job), (List.lookup jid jobs).isSome →
      List.lookup jid (setJob jid j jobs) = some j := by
  intro jobs
  induction jobs with
  | nil => intro h; simp [List.lookup] at h
  | cons p rest ih =>
    obtain ⟨k1, v1⟩ := p
    intro h
    simp only [setJob]
    by_cases h1 : (k1 == jid) = true
    · rw [if_pos h1]
      have hx : k1 = jid := by simpa using h1
      subst hx
      simp [List.lookup]
    · rw [if_neg h1]
      have hx : ¬ k1 = jid := by simpa using h1
      have hkk : (jid == k1) = false := by simp; omega
      simp only [List.lookup, hkk] at h ⊢
      exact ih h

theorem worker_step_nil (process : JobPayload → UserStore → Except String JobResult × UserStore)
    (jobs : List (Nat × Job)) (store : UserStore) :
    worker_step process ⟨jobs, [], store⟩ = ⟨jobs, [], store⟩ := rfl

theorem worker_step_miss (process : JobPayload → UserStore → Except String JobResult × UserStore)
    (jobs : List (Nat × Job)) (f : Nat) (rest : List Nat) (store : UserStore)
    (h : List.lookup f jobs = none) :
    worker_step process ⟨jobs, f :: rest, store⟩ = ⟨jobs, rest, store⟩ := by
  simp [worker_step, h]

theorem worker_step_hit (process : JobPayload → UserStore → Except String JobResult × UserStore)
    (jobs : List (Nat × Job)) (f : Nat) (rest : List Nat) (store : UserStore) (job : Job)
    (h : List.lookup f jobs = some job) :
    worker_step process ⟨jobs, f :: rest, store⟩ =
      ⟨setJob f (applyOutcome job (process job.payload store).1) jobs, rest,
       (process job.payload store).2⟩ := by
  simp [worker_step, h]

theorem worker_run_fifo (process : JobPayload → UserStore → Except String JobResult × UserStore)
    (n : Nat) : ∀ st : SystemState, (worker_run process n st).fifo = st.fifo.drop n := by
  induction n with
  | zero => intro st; rfl
  | succ n ih =>
    intro st
    obtain ⟨jobs, fifo, store⟩ := st
    rw [worker_run]
    rcases fifo with _ | ⟨f, rest⟩
    · rw [worker_step_nil, ih]
      simp
    · rcases hl : List.lookup f jobs with _ | job
      · rw [worker_step_miss process jobs f rest store hl, ih]
        rfl
      · rw [worker_step_hit process jobs f rest store job hl, ih]
        rfl

theorem worker_run_untouched
    (process : JobPayload → UserStore → Except String JobResult × UserStore) (n : Nat) :
    ∀ (st : SystemState) (jid : Nat), jid ∉ st.fifo →
      List.lookup jid (worker_run process n st).jobs = List.lookup jid st.jobs := by
  induction n with
  | zero => intro st jid _; rfl
  | succ n ih =>
    intro st jid h
    obtain ⟨jobs, fifo, store⟩ := st
    rw [worker_run]
    rcases fifo with _ | ⟨f, rest⟩
    · rw [worker_step_nil]
      exact ih _ jid h
    · have h' : jid ≠ f ∧ jid ∉ rest := by simpa [List.mem_cons, not_or] using h
      rcases hl : List.lookup f jobs with _ | job
      · rw [worker_step_miss process jobs f rest store hl]
        exact ih _ jid h'.2
      · rw [worker_step_hit process jobs f rest store job hl]
        rw [ih _ jid h'.2]
        exact lookup_setJob_other f jid _ h'.1 jobs

theorem worker_run_lookup
    (process : JobPayload → UserStore → Except String JobResult × UserStore) :
    ∀ (fifo : List Nat) (jobs : List (Nat × Job)) (store : UserStore) (jid : Nat) (job : Job),
      fifo.Nodup → jid ∈ fifo → List.lookup jid jobs = some job →
      ∃ s, List.lookup jid (worker_run process fifo.length ⟨jobs, fifo, store⟩).jobs
        = some (applyOutcome job (process job.payload s).1) := by
  intro fifo
  induction fifo with
  | nil =>
    intro _ _ jid _ _ hmem _
    simp at hmem
  | cons f rest ih =>
    intro jobs store jid job hnd hmem hl
    obtain ⟨hnf, hnr⟩ := List.nodup_cons.mp hnd
    rw [List.length_cons, worker_run]
    rcases hlf : List.lookup f jobs with _ | jobf
    · rw [worker_step_miss process jobs f rest store hlf]
      rcases List.mem_cons.mp hmem with rfl | hmem'
      · rw [hl] at hlf
        cases hlf
      · exact ih jobs store jid job hnr hmem' hl
    · rw [worker_step_hit process jobs f rest store jobf hlf]
      rcases List.mem_cons.mp hmem with rfl | hmem'
      · rw [hl] at hlf
        have hj : jobf = job := by
          injection hlf with hx
          exact hx.symm
        subst hj
        refine ⟨store, ?_⟩
        rw [worker_run_untouched process rest.length _ jid (by simpa using hnf)]
        exact lookup_setJob_self jid _ jobs (by simp [hl])
      · have hne : jid ≠ f := fun hh => hnf (hh ▸ hmem')
        have hl' : List.lookup jid
            (setJob f (applyOutcome jobf (process jobf.payload store).1) jobs) = some job := by
          rw [lookup_setJob_other f jid _ hne jobs]
          exact hl
        exact ih _ _ jid job hnr hmem' hl'

theorem worker_run_store
    (process : JobPayload → UserStore → Except String JobResult × UserStore)
    (hp : ∀ p s, (process p s).2 = s) (n : Nat) :
    ∀ st : SystemState, (worker_run process n st).store = st.store := by
  induction n with
  | zero => intro st; rfl
  | succ n ih =>
    intro st
    obtain ⟨jobs, fifo, store⟩ := st
    rw [worker_run]
    rcases fifo with _ | ⟨f, rest⟩
    · rw [worker_step_nil]
      exact ih _
    · rcases hl : List.lookup f jobs with _ | job
      · rw [worker_step_miss process jobs f rest store hl]
        exact ih _
      · rw [worker_step_hit process jobs f rest store job hl]
        rw [ih _]
        exact hp job.payload store

theorem process_job_store (problems : Int → Option Problem)
    (runner : String → String → String → String) (payload : JobPayload)
    (store : UserStore) :
    (_process_submission_job problems runner payload store).2 = store := by
  unfold _process_submission_job
  cases hprob : problems payload.problem_id with
  | none => rfl
  | some prob =>
    cases htcs : processTCs runner payload.language payload.code
        prob.allow_unordered_output prob.test_cases with
    | none => simp [htcs]
    | some res => simp [htcs]

theorem processTCs_all_pass (runner : String → String → String → String)
    (lang code : String) (allow : Bool) :
    ∀ tcs : List TestCase,
      (∀ tc ∈ tcs, startsFailure (runner lang code tc.input) = false ∧
        (if allow then http_unordered_match tc.output (runner lang code tc.input) = true
         else http_ordered_match tc.output (runner lang code tc.input) = true)) →
      processTCs runner lang code allow tcs = none := by
  intro tcs
  induction tcs with
  | nil => intro _; rfl
  | cons tc rest ih =>
    intro h
    obtain ⟨hsf, hcmp⟩ := h tc (by simp)
    have hrest := ih (fun t ht => h t (by simp [ht]))
    cases allow
    · simp only [Bool.false_eq_true, if_false] at hcmp
      simp [processTCs, hsf, hcmp, hrest]
    · simp only [if_true] at hcmp
      simp [processTCs, hsf, hcmp, hrest]

theorem process_job_all_pass (problems : Int → Option Problem)
    (runner : String → String → String → String) (payload : JobPayload)
    (store : UserStore) (prob : Problem)
    (hp : problems payload.problem_id = some prob)
    (hall : ∀ tc ∈ prob.test_cases,
      startsFailure (runner payload.language payload.code tc.input) = false ∧
      (if prob.allow_unordered_output then
        http_unordered_match tc.output (runner payload.language payload.code tc.input) = true
       else
        http_ordered_match tc.output (runner payload.language payload.code tc.input) = true)) :
    _process_submission_job problems runner payload store
      = (Except.error attributeErrorMsg, store) := by
  unfold _process_submission_job
  rw [hp]
  simp only [processTCs_all_pass runner payload.language payload.code
    prob.allow_unordered_output prob.test_cases hall]

theorem processTCs_tle (runner : String → String → String → String)
    (lang code : String) (allow : Bool) (tc : TestCase) (rest : List TestCase)
    (h : runner lang code tc.input = "⏰ Time Limit Exceeded") :
    processTCs runner lang code allow (tc :: rest)
      = some ⟨false, "⏰ Time Limit Exceeded", none, none⟩ := by
  simp only [processTCs, h]
  rw [if_pos (by decide : startsFailure "⏰ Time Limit Exceeded" = true)]

theorem process_job_tle (problems : Int → Option Problem)
    (runner : String → String → String → String) (payload : JobPayload)
    (store : UserStore) (prob : Problem)
    (hp : problems payload.problem_id = some prob)
    (hne : prob.test_cases ≠ [])
    (htle : ∀ input, runner payload.language payload.code input = "⏰ Time Limit Exceeded") :
    _process_submission_job problems runner payload store
      = (Except.ok ⟨false, "⏰ Time Limit Exceeded", none, none⟩, store) := by
  unfold _process_submission_job
  rw [hp]
  rcases htc : prob.test_cases with _ | ⟨tc, rest⟩
  · exact absurd htc hne
  · simp only [htc, processTCs_tle runner payload.language payload.code
      prob.allow_unordered_output tc rest (htle tc.input)]

/-! ## Theorems: job queue and HTTP judging path (C7, C8, C9) -/

/-- C8: for every queue of distinct pending job ids with records, running
the worker loop once per pending job drains the FIFO and leaves *every*
pending job with the terminal record `applyOutcome` of its own processing
outcome — an exception for one job never stops the loop from processing the
subsequent jobs — and `applyOutcome` on an exception stores the exception's
message in the job's `error` field and sets the status to `error`. -/
theorem c8_worker_error_handling
    (process : JobPayload → UserStore → Except String JobResult × UserStore)
    (st : SystemState)
    (hnd : st.fifo.Nodup)
    (hpresent : ∀ jid ∈ st.fifo, (List.lookup jid st.jobs).isSome) :
    (worker_run process st.fifo.length st).fifo = [] ∧
    (∀ jid ∈ st.fifo, ∃ job s,
      List.lookup jid st.jobs = some job ∧
      List.lookup jid (worker_run process st.fifo.length st).jobs
        = some (applyOutcome job (process job.payload s).1)) ∧
    (∀ (job : Job) (e : String),
      applyOutcome job (Except.error e)
        = { job with status := JobStatus.error, error := some e }) := by
  refine ⟨?_, ?_, fun job e => rfl⟩
  · rw [worker_run_fifo]
    simp
  · intro jid hmem
    obtain ⟨job, hjob⟩ : ∃ job, List.lookup jid st.jobs = some job := by
      rcases hx : List.lookup jid st.jobs with _ | job
      · have hy := hpresent jid hmem
        rw [hx] at hy
        simp at hy
      · exact ⟨job, rfl⟩
    obtain ⟨s, hs⟩ := worker_run_lookup process st.fifo st.jobs st.store jid job hnd hmem hjob
    exact ⟨job, s, hjob, hs⟩

/-- C8 witness: a two-job queue whose first job raises; after two worker
iterations the queue is drained and both jobs are terminal. -/
theorem c8_witness :
    (worker_run c8process c8state.fifo.length c8state).fifo = [] ∧
    (∀ jid ∈ c8state.fifo, ∃ job s,
      List.lookup jid c8state.jobs = some job ∧
      List.lookup jid (worker_run c8process c8state.fifo.length c8state).jobs
        = some (applyOutcome job (c8process job.payload s).1)) ∧
    (∀ (job : Job) (e : String),
      applyOutcome job (Except.error e)
        = { job with status := JobStatus.error, error := some e }) :=
  c8_worker_error_handling c8process c8state (by decide) (by decide)

/-- C7 counterexample: the claim says a timed-out HTTP submission ends
`done` with the TimeLimitExceeded verdict *and* the submitting user's
wrong-problems set gains the problem id.  Processing `demoState` (user 7,
problem 1, runner always timing out) does end the job `done` with the
timeout verdict, but the user store is untouched: user 7's wrong-problems
set is still empty and the rating still 0 — `_process_submission_job`
performs no user update on a non-accepted verdict. -/
theorem c7_counterexample :
    (List.lookup 0 (worker_run (_process_submission_job demoProblems demoTLERunner)
        1 demoState).jobs).map Job.status = some JobStatus.done ∧
    (List.lookup 0 (worker_run (_process_submission_job demoProblems demoTLERunner)
        1 demoState).jobs).map Job.result
      = some (some ⟨false, "⏰ Time Limit Exceeded", none, none⟩) ∧
    (List.lookup 7 (worker_run (_process_submission_job demoProblems demoTLERunner)
        1 demoState).store).map UserRecord.wrong_problems = some [] ∧
    (List.lookup 7 (worker_run (_process_submission_job demoProblems demoTLERunner)
        1 demoState).store).map UserRecord.rating = some 0 := by
  decide

/-- C7 (amended): every job-queue submission whose runner exceeds the time
limit on each test case ends with status `done` and the TimeLimitExceeded
verdict as its result, and the user store is completely unchanged — in
particular the submitting user's rating is unchanged and the wrong-problems
set does *not* gain the problem id, because the HTTP job processor records
nothing for non-accepted verdicts. -/
theorem c7_tle_job (problems : Int → Option Problem)
    (runner : String → String → String → String) (st : SystemState)
    (jid : Nat) (job : Job) (prob : Problem)
    (hnd : st.fifo.Nodup) (hmem : jid ∈ st.fifo)
    (hl : List.lookup jid st.jobs = some job)
    (hp : problems job.payload.problem_id = some prob)
    (hne : prob.test_cases ≠ [])
    (htle : ∀ input, runner job.payload.language job.payload.code input
      = "⏰ Time Limit Exceeded") :
    List.lookup jid (worker_run (_process_submission_job problems runner)
        st.fifo.length st).jobs
      = some { job with status := JobStatus.done, result := some ⟨false, "⏰ Time Limit Exceeded", none, none⟩ } ∧
    (worker_run (_process_submission_job problems runner) st.fifo.length st).store
      = st.store := by
  constructor
  · obtain ⟨s, hs⟩ := worker_run_lookup (_process_submission_job problems runner)
      st.fifo st.jobs st.store jid job hnd hmem hl
    rw [hs, process_job_tle problems runner job.payload s prob hp hne htle]
    rfl
  · exact worker_run_store _ (fun p s => process_job_store problems runner p s)
      st.fifo.length st

/-- C7 witness: the amended theorem at the concrete timed-out job. -/
theorem c7_witness :
    List.lookup 0 (worker_run (_process_submission_job demoProblems demoTLERunner)
        demoState.fifo.length demoState).jobs
      = some { demoJob with status := JobStatus.done, result := some ⟨false, "⏰ Time Limit Exceeded", none, none⟩ } ∧
    (worker_run (_process_submission_job demoProblems demoTLERunner)
        demoState.fifo.length demoState).store = demoState.store :=
  c7_tle_job demoProblems demoTLERunner demoState 0 demoJob demoProblem
    (by decide) (by decide) (by decide) (by decide) (by decide) (fun _ => rfl)

/-- C9: every job-queue submission that passes all of its problem's test
cases hits the call to the nonexistent `user_utils.update_user_score`: the
`AttributeError` is raised before the Accepted result is returned, the
worker stores its message and ends the job with status `error` instead of
`done`, and the user store — rating, total points, accepted set — is never
modified. -/
theorem c9_accepted_http_attribute_error (problems : Int → Option Problem)
    (runner : String → String → String → String) (st : SystemState)
    (jid : Nat) (job : Job) (prob : Problem)
    (hnd : st.fifo.Nodup) (hmem : jid ∈ st.fifo)
    (hl : List.lookup jid st.jobs = some job)
    (hp : problems job.payload.problem_id = some prob)
    (hall : ∀ tc ∈ prob.test_cases,
      startsFailure (runner job.payload.language job.payload.code tc.input) = false ∧
      (if prob.allow_unordered_output then
        http_unordered_match tc.output
          (runner job.payload.language job.payload.code tc.input) = true
       else
        http_ordered_match tc.output
          (runner job.payload.language job.payload.code tc.input) = true)) :
    List.lookup jid (worker_run (_process_submission_job problems runner)
        st.fifo.length st).jobs
      = some { job with status := JobStatus.error, error := some attributeErrorMsg } ∧
    (worker_run (_process_submission_job problems runner) st.fifo.length st).store
      = st.store := by
  constructor
  · obtain ⟨s, hs⟩ := worker_run_lookup (_process_submission_job problems runner)
      st.fifo st.jobs st.store jid job hnd hmem hl
    rw [hs, process_job_all_pass problems runner job.payload s prob hp hall]
    rfl
  · exact worker_run_store _ (fun p s => process_job_store problems runner p s)
      st.fifo.length st

/-- C9 witness: a concrete all-pass submission ends with status `error`
carrying the `AttributeError` message, and the user store is untouched. -/
theorem c9_witness :
    List.lookup 0 (worker_run (_process_submission_job demoProblems demoOKRunner)
        demoOKState.fifo.length demoOKState).jobs
      = some { demoOKJob with status := JobStatus.error, error := some attributeErrorMsg } ∧
    (worker_run (_process_submission_job demoProblems demoOKRunner)
        demoOKState.fifo.length demoOKState).store = demoOKState.store :=
  c9_accepted_http_attribute_error demoProblems demoOKRunner demoOKState 0
    demoOKJob demoProblem (by decide) (by decide) (by decide) (by decide) (by decide)

/-! ## Theorems: ranking (C6) -/

/-- C6: the sort order of `get_sorted_users` is as claimed, but the printed
rank is not.  `build_ranking_message` resets `prev_key` and `actual_pos` at
the start of every page slice, so the first user of page 2 — the user at
1-based position 11 of the full sorted sequence — is printed with rank 1,
where standard competition ranking (and the claim) requires rank 11.  With
eleven users of pairwise distinct ratings 11..1, page 2 shows the single
rating-1 user, who is the 11th of the sorted sequence, with printed
rank 1. -/
theorem c6_page_rank_bug :
    build_ranking_rows demoUsers 2 = some [(1, demoUser 1)] ∧
    (get_sorted_users demoUsers).drop 10 = [demoUser 1] ∧
    (get_sorted_users demoUsers).length = 11 := by
  decide
